import Mathlib

/-!
Verification development for the webhook receiver service (`index.js`).

The service captures arbitrary inbound HTTP requests addressed to dynamically
created endpoints, persists them in MongoDB (`endpoints`, `requests`,
`userSettings` collections), fans them out live over Socket.IO rooms, and
routes best-effort e-mail notifications.

The embedding below translates the Express/Socket.IO handlers into pure Lean
functions over an explicit database state.  MongoDB collections are modelled
as lists of documents kept in insertion order; `insertOne` appends at the end
and assigns the next value of a store counter as the document identifier
(MongoDB's `insertedId`, the store-assigned sequence identifier of the spec).
JavaScript truthiness on optional string fields is modelled explicitly.
-/

namespace Webhook

/-- A document of the `endpoints` collection: created by `app.post('/new')`
with `_id` (a UUID), optional trimmed `name`, `createdAt`, and
`createdBy` (the authenticated creator's e-mail; optional because older
documents may lack it, cf. the truthiness check `if (endpointExists.createdBy)`). -/
structure Endpoint where
  _id : String
  name : Option String
  createdAt : Nat
  createdBy : Option String
  deriving Repr, DecidableEq

/-- A document of the `requests` collection, as built in `app.all('/:id')`:
`{ endpointId, method, headers, body, query, timestamp }` plus the
store-assigned `_id` (`result.insertedId`), modelled as a natural number
issued by a per-store counter.  Headers, body and query are opaque payloads. -/
structure StoredRequest where
  _id : Nat
  endpointId : String
  method : String
  headers : String
  body : String
  query : String
  timestamp : Nat
  deriving Repr, DecidableEq

/-- A document of the `userSettings` collection: keyed by `userId` (an
identity key: either a Google subject id or an e-mail address), with the
`emailNotifications` flag and the `notificationEmail` target.  Both value
fields are optional because the `$set` upserts create documents that may
lack either field; JavaScript reads them with truthiness semantics. -/
structure UserSetting where
  userId : String
  emailNotifications : Option Bool
  notificationEmail : Option String
  deriving Repr, DecidableEq

/-- The MongoDB database state: the three collections, each in insertion
order, and the counter from which the store assigns request identifiers. -/
structure DB where
  endpoints : List Endpoint
  requests : List StoredRequest
  userSettings : List UserSetting
  nextId : Nat
  deriving Repr, DecidableEq

/-- JavaScript truthiness of an optional string (`undefined` and `""` are
falsy). -/
def jsTruthy : Option String → Bool
  | none => false
  | some s => !s.isEmpty

/-- JavaScript `a || b` on an optional string `a` with string default `b`. -/
def jsOrElse (a : Option String) (b : String) : String :=
  match a with
  | none => b
  | some s => if s.isEmpty then b else s

/-- JavaScript `email.includes('@')`. -/
def containsAt (s : String) : Bool :=
  s.toList.contains '@'

/-- `endpointsCollection.findOne({ _id: id })`: first document whose `_id`
matches. -/
def findOneEndpoint (db : DB) (id : String) : Option Endpoint :=
  db.endpoints.find? (fun e => e._id == id)

/-- `endpointsCollection.deleteOne({ _id: id })`: removes the first matching
document (MongoDB `_id`s are unique, so at most one exists). -/
def deleteOneEndpoint : List Endpoint → String → List Endpoint
  | [], _ => []
  | e :: rest, id => if e._id == id then rest else e :: deleteOneEndpoint rest id

/-- Insertion step of the descending-timestamp sort used by the join
handler's `.sort({ timestamp: -1 })`: place `r` before the first element
with a strictly smaller timestamp. -/
def insertDescByTimestamp (r : StoredRequest) : List StoredRequest → List StoredRequest
  | [] => [r]
  | x :: xs =>
    if r.timestamp > x.timestamp then r :: x :: xs
    else x :: insertDescByTimestamp r xs

/-- `.sort({ timestamp: -1 })`: sort most-recent-first (insertion sort;
stable on equal timestamps, which is one legal MongoDB behaviour — the
theorems that depend on order assume distinct timestamps). -/
def sortDescByTimestamp : List StoredRequest → List StoredRequest
  | [] => []
  | r :: rs => insertDescByTimestamp r (sortDescByTimestamp rs)

/-- The catch-up query of the socket `join` handler:
`requestsCollection.find({ endpointId }).sort({ timestamp: -1 }).limit(100).toArray()`. -/
def recentRequestsQuery (db : DB) (endpointId : String) : List StoredRequest :=
  (sortDescByTimestamp (db.requests.filter (fun r => r.endpointId == endpointId))).take 100

/-! ## Notification router (`sendWebhookNotification`) -/

/-- The setting-resolution chain at the top of `sendWebhookNotification`:
lookup by explicit Google user id when supplied; if that found nothing,
fallback 1 looks up by `notificationEmail == creatorEmail`; if still
nothing, fallback 2 looks up by `userId == creatorEmail`. -/
def resolveUserSettings (db : DB) (googleUserId : Option String)
    (creatorEmail : String) : Option UserSetting :=
  let byId : Option UserSetting :=
    match googleUserId with
    | some uid => db.userSettings.find? (fun s => s.userId == uid)
    | none => none
  let byNotif : Option UserSetting :=
    match byId with
    | some s => some s
    | none => db.userSettings.find? (fun s => s.notificationEmail == some creatorEmail)
  match byNotif with
  | some s => some s
  | none => db.userSettings.find? (fun s => s.userId == creatorEmail)

/-- Outcome of one `transporter.sendMail` call: `ok` or a thrown error,
supplied by the environment since the mail transport is an external
collaborator. -/
def Transport := String → Except String Unit

/-- Observable behaviour of `sendWebhookNotification(creatorEmail,
endpointId, requestData, req, googleUserId)`: the list of transport
`sendMail` invocations it makes (by destination address) and the error its
catch-all swallowed, if any.  The function body resolves settings via the
fallback chain, returns silently when the resolved setting's
`emailNotifications` is not truthy, returns (logging only) when no
`transporter` is configured, and otherwise sends one mail to
`userSettings.notificationEmail || creatorEmail`; every thrown error is
caught and logged, never rethrown to the caller. -/
def sendWebhookNotification (db : DB) (creatorEmail : String)
    (googleUserId : Option String) (transporter : Option Transport) :
    List String × Option String :=
  match resolveUserSettings db googleUserId creatorEmail with
  | none => ([], none)
  | some s =>
    if s.emailNotifications ≠ some true then ([], none)
    else
      match transporter with
      | none => ([], none)
      | some sendMail =>
        let addr := jsOrElse s.notificationEmail creatorEmail
        match sendMail addr with
        | .ok _ => ([addr], none)
        | .error e => ([addr], some e)

/-! ## Ingestion pipeline (`app.all('/:id')`) -/

/-- The HTTP response of the webhook receiver route: `404 Endpoint not
found`, a `302` redirect for browser GETs, or `200 Received`. -/
inductive IngestResult where
  | notFound
  | redirect (requestId : Nat)
  | received (requestId : Nat)
  deriving Repr, DecidableEq

/-- A response is a success acknowledgment (anything except the 404). -/
def IngestResult.isSuccess : IngestResult → Bool
  | .notFound => false
  | .redirect _ => true
  | .received _ => true

/-- Everything observable about one run of the webhook receiver route. -/
structure IngestOutcome where
  db : DB
  response : IngestResult
  /-- The `io.to(id).emit('new_request', ...)` broadcast: target room and
  persisted record, when the endpoint existed. -/
  broadcast : Option (String × StoredRequest)
  /-- Transport invocations made by the fire-and-forget notification call. -/
  mailsSent : List String
  deriving DecidableEq

/-- `app.all('/:id')`: look up the endpoint (404 when absent, nothing
appended); otherwise build the document, `insertOne` it (the store assigns
`insertedId` from its counter), broadcast `new_request` to room `id`,
fire-and-forget `sendWebhookNotification` when `endpointExists.createdBy`
is truthy (with `googleUserId = null`), and answer: a redirect when the
request is a browser GET (`method === 'GET'` and the user agent contains
`Mozilla`), else `200 Received`. -/
def ingest (db : DB) (id method headers body query : String) (now : Nat)
    (userAgent : String) (transporter : Option Transport) : IngestOutcome :=
  match findOneEndpoint db id with
  | none => ⟨db, .notFound, none, []⟩
  | some ep =>
    let data : StoredRequest :=
      ⟨db.nextId, id, method, headers, body, query, now⟩
    let db' : DB :=
      { db with requests := db.requests ++ [data], nextId := db.nextId + 1 }
    let mails :=
      if jsTruthy ep.createdBy then
        (sendWebhookNotification db' (ep.createdBy.getD "") none transporter).1
      else []
    let response :=
      if method == "GET" && (userAgent.splitOn "Mozilla").length > 1 then
        IngestResult.redirect data._id
      else IngestResult.received data._id
    ⟨db', response, some (id, data), mails⟩

/-! ## Socket join handler and endpoint deletion -/

/-- Result of the socket `join` handler: the `error` emit, or success with
the `init_requests` snapshot payload (in emitted order). -/
inductive JoinResult where
  | errorNotFound
  | joined (snapshot : List StoredRequest)
  deriving Repr, DecidableEq

/-- The socket `join` handler as a query: emit `error` when the endpoint
does not exist (the socket is not added to any room); otherwise the socket
joins room `endpointId` and receives `init_requests` with the catch-up
query's result, formatted in the very order the descending-timestamp query
returned it (the handler applies no reversal). -/
def joinHandler (db : DB) (endpointId : String) : JoinResult :=
  match findOneEndpoint db endpointId with
  | none => .errorNotFound
  | some _ => .joined (recentRequestsQuery db endpointId)

/-- `app.delete('/endpoints/:id')`: runs behind `authenticateGoogleToken`
(so `callerEmail` is available as `req.user.email`) but the handler body
uses only the path parameter: it deletes the endpoint document by `_id`
and `deleteMany`s the requests logged against it, then answers
`{ success: true }`. -/
def deleteEndpointHandler (db : DB) (callerEmail : String)
    (endpointId : String) : DB × Bool :=
  let _ := callerEmail
  let db' : DB :=
    { db with
      endpoints := deleteOneEndpoint db.endpoints endpointId,
      requests := db.requests.filter (fun r => r.endpointId != endpointId) }
  (db', true)

/-! ## Notification preference writes (`/api/notifications/email`) -/

/-- `updateOne({ userId }, { $set: { notificationEmail } }, { upsert: true })`:
modify the first document with this `userId`, or append a fresh document
holding only the set field when none matches. -/
def upsertNotificationEmail (settings : List UserSetting) (uid email : String) :
    List UserSetting :=
  match settings with
  | [] => [⟨uid, none, some email⟩]
  | s :: rest =>
    if s.userId == uid then { s with notificationEmail := some email } :: rest
    else s :: upsertNotificationEmail rest uid email

/-- `app.post('/api/notifications/email')`: reject (400) unless the new
address is truthy and contains `@`; `deleteMany` the settings whose
`userId` is among `[req.user.sub, req.user.email].filter(Boolean)` and
whose `notificationEmail` differs from the new address (MongoDB `$ne`
also matches documents missing the field); upsert the new address under
the Google subject id, and, when `req.user.email` is truthy and differs
from the subject id, under the e-mail key too.  Returns whether the
request succeeded. -/
def setNotificationEmailHandler (db : DB) (sub : String)
    (userEmail : Option String) (email : String) : DB × Bool :=
  if email.isEmpty || !containsAt email then (db, false)
  else
    let keys : List String :=
      ([some sub, userEmail].filterMap id).filter (fun k => !k.isEmpty)
    let cleaned :=
      db.userSettings.filter
        (fun s => !(keys.contains s.userId && s.notificationEmail != some email))
    let upserted1 := upsertNotificationEmail cleaned sub email
    let upserted2 :=
      match userEmail with
      | some e => if !e.isEmpty && e != sub then upsertNotificationEmail upserted1 e email
                  else upserted1
      | none => upserted1
    ({ db with userSettings := upserted2 }, true)

/-! ## Event-loop interleaving model

Node.js multiplexes the async handlers over one event loop, so a handler
runs as a sequence of atomic segments separated by its `await` points, and
segments of concurrent handler invocations interleave arbitrarily.  The
webhook receiver route splits into three segments: the endpoint existence
check, the `insertOne` append, and the synchronous continuation that emits
the `new_request` broadcast.  The socket `join` handler splits into two:
the existence check followed immediately (same synchronous segment) by
`socket.join`, and the snapshot query followed by the `init_requests`
emit.  Tasks are named by numbers; the scheduler is an arbitrary list of
segments. -/

/-- Arguments of one invocation of the webhook receiver route. -/
structure IngestArgs where
  endpointId : String
  method : String
  headers : String
  body : String
  query : String
  timestamp : Nat
  deriving Repr, DecidableEq

/-- Arguments of one socket `join` invocation. -/
structure JoinArgs where
  subscriber : String
  endpointId : String
  deriving Repr, DecidableEq

/-- How a record reached a subscriber: in the `init_requests` catch-up
snapshot, or as a live `new_request` broadcast. -/
inductive DeliveryKind where
  | snapshot
  | live
  deriving Repr, DecidableEq

/-- One record delivered to one subscriber, with the room it came through. -/
structure Delivery where
  subscriber : String
  endpointId : String
  request : StoredRequest
  kind : DeliveryKind
  deriving Repr, DecidableEq

/-- One atomic event-loop segment of a running handler. -/
inductive Step where
  /-- Ingest task `t` completes `endpointsCollection.findOne`. -/
  | ingestCheck (t : Nat)
  /-- Ingest task `t` completes `requestsCollection.insertOne`. -/
  | ingestAppend (t : Nat)
  /-- Ingest task `t` runs `io.to(id).emit('new_request', ...)`. -/
  | ingestBroadcast (t : Nat)
  /-- Join task `j` completes its existence check and, when the endpoint
  exists, immediately runs `socket.join(endpointId)`. -/
  | joinCheckAndAdd (j : Nat)
  /-- Join task `j` completes the catch-up query and emits `init_requests`. -/
  | joinSnapshot (j : Nat)
  deriving Repr, DecidableEq

/-- The interleaving-model state: the database, Socket.IO room membership
(pairs of room name and subscriber), the log of deliveries made so far,
and the per-task progress registers. -/
structure ExecState where
  db : DB
  rooms : List (String × String)
  deliveries : List Delivery
  /-- Ingest tasks whose existence check found the endpoint. -/
  ingOk : List Nat
  /-- Ingest tasks that appended, with the record the store persisted. -/
  ingReq : List (Nat × StoredRequest)
  /-- Ingest tasks that have emitted their broadcast. -/
  ingBcast : List Nat
  /-- Join tasks whose check found the endpoint (and so joined the room). -/
  joinOk : List Nat
  /-- Join tasks that have emitted their snapshot. -/
  joinSnapped : List Nat
  deriving Repr, DecidableEq

/-- Small-step semantics of one segment.  Guards encode the data flow of
the handler bodies: a task's later segment acts only once its earlier
segment has recorded success, and acts at most once. -/
def step (ia : Nat → IngestArgs) (ja : Nat → JoinArgs) (s : ExecState) :
    Step → ExecState
  | .ingestCheck t =>
    if (findOneEndpoint s.db (ia t).endpointId).isSome && !s.ingOk.contains t then
      { s with ingOk := t :: s.ingOk }
    else s
  | .ingestAppend t =>
    if s.ingOk.contains t && !(s.ingReq.map Prod.fst).contains t then
      let a := ia t
      let r : StoredRequest :=
        ⟨s.db.nextId, a.endpointId, a.method, a.headers, a.body, a.query, a.timestamp⟩
      { s with
        db := { s.db with requests := s.db.requests ++ [r], nextId := s.db.nextId + 1 },
        ingReq := (t, r) :: s.ingReq }
    else s
  | .ingestBroadcast t =>
    if s.ingBcast.contains t then s
    else
      match s.ingReq.find? (fun p => p.1 == t) with
      | none => s
      | some (_, r) =>
        let receivers := (s.rooms.filter (fun p => p.1 == r.endpointId)).map Prod.snd
        { s with
          deliveries :=
            s.deliveries ++ receivers.map (fun sub => ⟨sub, r.endpointId, r, .live⟩),
          ingBcast := t :: s.ingBcast }
  | .joinCheckAndAdd j =>
    if (findOneEndpoint s.db (ja j).endpointId).isSome && !s.joinOk.contains j then
      { s with
        rooms := s.rooms ++ [((ja j).endpointId, (ja j).subscriber)],
        joinOk := j :: s.joinOk }
    else s
  | .joinSnapshot j =>
    if s.joinOk.contains j && !s.joinSnapped.contains j then
      let a := ja j
      { s with
        deliveries :=
          s.deliveries ++
            (recentRequestsQuery s.db a.endpointId).map
              (fun r => ⟨a.subscriber, a.endpointId, r, .snapshot⟩),
        joinSnapped := j :: s.joinSnapped }
    else s

/-- Run a schedule of segments from a state. -/
def run (ia : Nat → IngestArgs) (ja : Nat → JoinArgs) (s : ExecState)
    (tr : List Step) : ExecState :=
  tr.foldl (step ia ja) s

/-! ## Spec-side definition for the catch-up snapshot -/

/-- Modelled from the spec: the catch-up snapshot as §4.3 and §8 word it —
"the most recent up-to-100 persisted requests for that endpoint, ordered
oldest-to-newest", i.e. the tail (in insertion order) of the endpoint's
persisted log.  Used only to compare the code's emitted snapshot with the
spec's wording. -/
def specCatchUpTail (db : DB) (endpointId : String) : List StoredRequest :=
  let l := db.requests.filter (fun r => r.endpointId == endpointId)
  l.drop (l.length - 100)

/-! ## Lemmas about the descending-timestamp sort -/

theorem insertDescByTimestamp_eq_append (r : StoredRequest)
    (xs : List StoredRequest) (h : ∀ x ∈ xs, r.timestamp ≤ x.timestamp) :
    insertDescByTimestamp r xs = xs ++ [r] := by
  induction xs with
  | nil => rfl
  | cons x xs ih =>
    have hx : ¬ r.timestamp > x.timestamp :=
      Nat.not_lt.mpr (h x (List.mem_cons_self x xs))
    simp only [insertDescByTimestamp, if_neg hx, List.cons_append, List.cons.injEq,
      true_and]
    exact ih fun y hy => h y (List.mem_cons_of_mem x hy)

theorem sortDescByTimestamp_of_strictMono (l : List StoredRequest)
    (h : l.Pairwise (fun a b => a.timestamp < b.timestamp)) :
    sortDescByTimestamp l = l.reverse := by
  induction l with
  | nil => rfl
  | cons r rs ih =>
    have hr : ∀ x ∈ rs, r.timestamp < x.timestamp := (List.pairwise_cons.mp h).1
    have htail := (List.pairwise_cons.mp h).2
    simp only [sortDescByTimestamp, ih htail, List.reverse_cons]
    exact insertDescByTimestamp_eq_append r rs.reverse fun x hx =>
      Nat.le_of_lt (hr x (List.mem_reverse.mp hx))

theorem reverse_take_eq_drop_reverse (l : List StoredRequest) (n : Nat) :
    l.reverse.take n = (l.drop (l.length - n)).reverse := by
  have h := List.reverse_take (l := l.reverse) (n := n)
  rw [List.reverse_reverse, List.length_reverse] at h
  rw [← h, List.reverse_reverse]

/-! ## Claim theorems: catch-up snapshot (C1) -/

/-- C1 counterexample: the join handler emits the catch-up snapshot in the
very order returned by `.sort({ timestamp: -1 })` — newest first — so with
two persisted requests (timestamps 1 and 2) the emitted snapshot is not
the oldest-to-newest persisted tail the claim describes. -/
theorem join_snapshot_not_oldest_first :
    joinHandler
        (DB.mk [Endpoint.mk "e" none 0 none]
          [StoredRequest.mk 0 "e" "POST" "h" "b" "q" 1,
           StoredRequest.mk 1 "e" "POST" "h" "b" "q" 2] [] 2) "e" ≠
      JoinResult.joined
        (specCatchUpTail
          (DB.mk [Endpoint.mk "e" none 0 none]
            [StoredRequest.mk 0 "e" "POST" "h" "b" "q" 1,
             StoredRequest.mk 1 "e" "POST" "h" "b" "q" 2] [] 2) "e") := by
  decide

/-- C1 (amended): for an existing endpoint whose persisted requests carry
strictly increasing timestamps, the catch-up snapshot emitted on join is
exactly the at-most-100 most recent persisted requests, but ordered
newest-to-oldest — the reverse of the spec's oldest-to-newest persisted
tail — and it never exceeds 100 entries. -/
theorem join_snapshot_is_reversed_tail (db : DB) (id : String) (ep : Endpoint)
    (hep : findOneEndpoint db id = some ep)
    (hmono : (db.requests.filter (fun r => r.endpointId == id)).Pairwise
      (fun a b => a.timestamp < b.timestamp)) :
    joinHandler db id = JoinResult.joined ((specCatchUpTail db id).reverse) ∧
    (specCatchUpTail db id).length ≤ 100 := by
  constructor
  · simp only [joinHandler, hep, recentRequestsQuery, specCatchUpTail,
      sortDescByTimestamp_of_strictMono _ hmono,
      reverse_take_eq_drop_reverse]
  · simp only [specCatchUpTail, List.length_drop]
    omega

/-- Witness for C1's amended theorem at a concrete database. -/
theorem join_snapshot_is_reversed_tail_witness :
    joinHandler
        (DB.mk [Endpoint.mk "e" none 0 none]
          [StoredRequest.mk 0 "e" "POST" "h" "b" "q" 1,
           StoredRequest.mk 1 "e" "POST" "h" "b" "q" 2] [] 2) "e" =
      JoinResult.joined
        ((specCatchUpTail
          (DB.mk [Endpoint.mk "e" none 0 none]
            [StoredRequest.mk 0 "e" "POST" "h" "b" "q" 1,
             StoredRequest.mk 1 "e" "POST" "h" "b" "q" 2] [] 2) "e").reverse) ∧
    (specCatchUpTail
        (DB.mk [Endpoint.mk "e" none 0 none]
          [StoredRequest.mk 0 "e" "POST" "h" "b" "q" 1,
           StoredRequest.mk 1 "e" "POST" "h" "b" "q" 2] [] 2) "e").length ≤ 100 :=
  join_snapshot_is_reversed_tail _ "e" (Endpoint.mk "e" none 0 none)
    (by decide) (by decide)

/-! ## Claim theorems: ingest on unknown endpoint (C4) -/

/-- C4: an ingest addressed to an endpoint identifier that no registered
endpoint carries answers `404 Endpoint not found`, appends nothing to the
store (the database is unchanged), and broadcasts nothing. -/
theorem ingest_unknown_endpoint (db : DB)
    (id method headers body query ua : String) (now : Nat)
    (tp : Option Transport) (h : ∀ e ∈ db.endpoints, e._id ≠ id) :
    (ingest db id method headers body query now ua tp).response =
      IngestResult.notFound ∧
    (ingest db id method headers body query now ua tp).db = db ∧
    (ingest db id method headers body query now ua tp).broadcast = none := by
  have hf : findOneEndpoint db id = none := by
    apply List.find?_eq_none.mpr
    intro e he
    simpa using h e he
  simp [ingest, hf]

/-- Witness for C4 at a concrete database. -/
theorem ingest_unknown_endpoint_witness :
    (ingest (DB.mk [Endpoint.mk "e" none 0 none] [] [] 0)
        "other" "POST" "h" "b" "q" 7 "curl/8" none).response =
      IngestResult.notFound ∧
    (ingest (DB.mk [Endpoint.mk "e" none 0 none] [] [] 0)
        "other" "POST" "h" "b" "q" 7 "curl/8" none).db =
      DB.mk [Endpoint.mk "e" none 0 none] [] [] 0 ∧
    (ingest (DB.mk [Endpoint.mk "e" none 0 none] [] [] 0)
        "other" "POST" "h" "b" "q" 7 "curl/8" none).broadcast = none :=
  ingest_unknown_endpoint _ "other" "POST" "h" "b" "q" "curl/8" 7 none (by decide)

/-! ## Claim theorems: ingest success decoupled from notification (C5) -/

/-- C5: when the endpoint exists (so the append succeeds), the webhook
route reports success for every possible notification transport — the
response and the resulting database are identical whether the transport is
absent, succeeds, or throws; a thrown `sendMail` is swallowed inside
`sendWebhookNotification` and never reaches the ingest caller. -/
theorem ingest_success_despite_transport (db : DB)
    (id method headers body query ua : String) (now : Nat) (ep : Endpoint)
    (hep : findOneEndpoint db id = some ep) :
    ∀ tp : Option Transport,
      (ingest db id method headers body query now ua tp).response.isSuccess =
        true ∧
      (ingest db id method headers body query now ua tp).response =
        (ingest db id method headers body query now ua none).response ∧
      (ingest db id method headers body query now ua tp).db =
        (ingest db id method headers body query now ua none).db := by
  intro tp
  refine ⟨?_, ?_, ?_⟩
  · simp only [ingest, hep]
    split <;> simp [IngestResult.isSuccess]
  · simp only [ingest, hep]
  · simp only [ingest, hep]

/-- Witness for C5: a transport that always throws still yields a success
acknowledgment, at a database whose owner has notifications enabled (so
the throwing `sendMail` is really invoked). -/
theorem ingest_success_despite_transport_witness :
    (ingest
        (DB.mk [Endpoint.mk "e" none 0 (some "alice@example.com")] []
          [UserSetting.mk "alice@example.com" (some true) (some "alice@work.com")] 0)
        "e" "POST" "h" "b" "q" 7 "curl/8"
        (some fun _ => Except.error "smtp down")).response.isSuccess = true ∧
    (ingest
        (DB.mk [Endpoint.mk "e" none 0 (some "alice@example.com")] []
          [UserSetting.mk "alice@example.com" (some true) (some "alice@work.com")] 0)
        "e" "POST" "h" "b" "q" 7 "curl/8"
        (some fun _ => Except.error "smtp down")).response =
      (ingest
        (DB.mk [Endpoint.mk "e" none 0 (some "alice@example.com")] []
          [UserSetting.mk "alice@example.com" (some true) (some "alice@work.com")] 0)
        "e" "POST" "h" "b" "q" 7 "curl/8" none).response ∧
    (ingest
        (DB.mk [Endpoint.mk "e" none 0 (some "alice@example.com")] []
          [UserSetting.mk "alice@example.com" (some true) (some "alice@work.com")] 0)
        "e" "POST" "h" "b" "q" 7 "curl/8"
        (some fun _ => Except.error "smtp down")).db =
      (ingest
        (DB.mk [Endpoint.mk "e" none 0 (some "alice@example.com")] []
          [UserSetting.mk "alice@example.com" (some true) (some "alice@work.com")] 0)
        "e" "POST" "h" "b" "q" 7 "curl/8" none).db :=
  ingest_success_despite_transport _ "e" "POST" "h" "b" "q" "curl/8" 7
    (Endpoint.mk "e" none 0 (some "alice@example.com")) (by decide)
    (some fun _ => Except.error "smtp down")

/-! ## Claim theorems: delete ignores ownership (C9) -/

/-- C9: the delete handler never consults the authenticated caller's
identity — a delete issued by `mallory@evil.com` against an endpoint owned
by `alice@example.com` still removes the endpoint and all its requests and
answers success, contradicting the owner-only deletion the spec requires. -/
theorem delete_ignores_ownership :
    (deleteEndpointHandler
        (DB.mk [Endpoint.mk "ep1" (some "hook") 0 (some "alice@example.com")]
          [StoredRequest.mk 0 "ep1" "POST" "h" "b" "q" 1] [] 2)
        "mallory@evil.com" "ep1").1.endpoints = [] ∧
    (deleteEndpointHandler
        (DB.mk [Endpoint.mk "ep1" (some "hook") 0 (some "alice@example.com")]
          [StoredRequest.mk 0 "ep1" "POST" "h" "b" "q" 1] [] 2)
        "mallory@evil.com" "ep1").1.requests = [] ∧
    (deleteEndpointHandler
        (DB.mk [Endpoint.mk "ep1" (some "hook") 0 (some "alice@example.com")]
          [StoredRequest.mk 0 "ep1" "POST" "h" "b" "q" 1] [] 2)
        "mallory@evil.com" "ep1").2 = true := by
  decide

/-! ## Claim theorems: notification routing (C6) -/

theorem isEmpty_false_of_ne (s : String) (h : s ≠ "") : s.isEmpty = false := by
  rw [Bool.eq_false_iff]
  intro hc
  exact h ((String.isEmpty_iff s).mp hc)

/-- C6: with no explicit Google user id (the webhook path), where no
setting matches `notificationEmail == K`, and the first setting keyed by
`K` is enabled with notification address `A`, the router invokes the mail
transport exactly once, addressed to `A` — the resolution fell through to
the key lookup; and whenever the chain resolves nothing, or resolves a
setting whose `emailNotifications` is not truthy, the transport is invoked
zero times (and no error is reported). -/
theorem notification_routing (db : DB) (K A : String) (s : UserSetting)
    (sendMail : Transport)
    (h1 : db.userSettings.find? (fun x => x.notificationEmail == some K) = none)
    (h2 : db.userSettings.find? (fun x => x.userId == K) = some s)
    (h3 : s.emailNotifications = some true)
    (h4 : s.notificationEmail = some A)
    (h5 : A ≠ "") :
    (sendWebhookNotification db K none (some sendMail)).1 = [A] ∧
    (∀ db2 : DB, resolveUserSettings db2 none K = none →
      sendWebhookNotification db2 K none (some sendMail) = ([], none)) ∧
    (∀ (db2 : DB) (s2 : UserSetting),
      resolveUserSettings db2 none K = some s2 →
      s2.emailNotifications ≠ some true →
      sendWebhookNotification db2 K none (some sendMail) = ([], none)) := by
  refine ⟨?_, ?_, ?_⟩
  · have hres : resolveUserSettings db none K = some s := by
      simp [resolveUserSettings, h1, h2]
    have hA : jsOrElse s.notificationEmail K = A := by
      simp [jsOrElse, h4, isEmpty_false_of_ne A h5]
    cases hm : sendMail A <;>
      simp [sendWebhookNotification, hres, h3, hA, hm]
  · intro db2 hres
    simp [sendWebhookNotification, hres]
  · intro db2 s2 hres hne
    simp [sendWebhookNotification, hres, hne]

/-- Witness for C6: the spec's own example — a setting keyed by
`alice@example.com`, enabled, targeting `alice@work.com`, resolves through
the key fallback and the mail goes to `alice@work.com`. -/
theorem notification_routing_witness :
    (sendWebhookNotification
        (DB.mk [] []
          [UserSetting.mk "alice@example.com" (some true) (some "alice@work.com")] 0)
        "alice@example.com" none (some fun _ => Except.ok ())).1 =
      ["alice@work.com"] :=
  (notification_routing _ "alice@example.com" "alice@work.com"
      (UserSetting.mk "alice@example.com" (some true) (some "alice@work.com"))
      (fun _ => Except.ok ()) (by decide) (by decide) (by decide) (by decide)
      (by decide)).1

/-! ## Lemmas about the settings upsert (C7) -/

theorem upsertNotificationEmail_exists (l : List UserSetting)
    (uid email : String) :
    ∃ x ∈ upsertNotificationEmail l uid email,
      x.userId = uid ∧ x.notificationEmail = some email := by
  induction l with
  | nil =>
    exact ⟨⟨uid, none, some email⟩, by simp [upsertNotificationEmail]⟩
  | cons s rest ih =>
    cases h : (s.userId == uid) with
    | true =>
      refine ⟨{ s with notificationEmail := some email }, ?_, ?_, rfl⟩
      · simp [upsertNotificationEmail, h]
      · simpa using beq_iff_eq.mp h
    | false =>
      obtain ⟨x, hx, hprop⟩ := ih
      exact ⟨x, by simp [upsertNotificationEmail, h, hx], hprop⟩

theorem mem_upsertNotificationEmail_cases (l : List UserSetting)
    (uid email : String) (x : UserSetting)
    (hx : x ∈ upsertNotificationEmail l uid email) :
    x.notificationEmail = some email ∨ x ∈ l := by
  induction l with
  | nil =>
    simp only [upsertNotificationEmail, List.mem_singleton] at hx
    subst hx
    exact Or.inl rfl
  | cons s rest ih =>
    cases h : (s.userId == uid) with
    | true =>
      simp only [upsertNotificationEmail, h, if_pos] at hx
      rcases List.mem_cons.mp hx with h1 | h1
      · subst h1
        exact Or.inl rfl
      · exact Or.inr (List.mem_cons_of_mem s h1)
    | false =>
      simp only [upsertNotificationEmail, h, Bool.false_eq_true, if_neg,
        not_false_iff] at hx
      rcases List.mem_cons.mp hx with h1 | h1
      · exact Or.inr (h1 ▸ List.mem_cons_self s rest)
      · rcases ih h1 with h2 | h2
        · exact Or.inl h2
        · exact Or.inr (List.mem_cons_of_mem s h2)

theorem mem_upsertNotificationEmail_of_ne (l : List UserSetting)
    (uid email : String) (x : UserSetting) (hx : x ∈ l)
    (hne : x.userId ≠ uid) : x ∈ upsertNotificationEmail l uid email := by
  induction l with
  | nil => cases hx
  | cons s rest ih =>
    rcases List.mem_cons.mp hx with h1 | h1
    · subst h1
      have h : (x.userId == uid) = false := by
        simpa using hne
      simp [upsertNotificationEmail, h]
    · cases h : (s.userId == uid) with
      | true => simp [upsertNotificationEmail, h, List.mem_cons_of_mem _ h1]
      | false => simp [upsertNotificationEmail, h, List.mem_cons_of_mem _ (ih h1)]

/-- C7: for a principal whose Google subject id and e-mail are both known
(truthy and distinct), saving a new valid notification address succeeds,
leaves the new address present under both identity keys, and leaves no
setting under either of the principal's keys carrying any other address —
stale rows with the old address under the other key are purged. -/
theorem set_email_consolidates (db : DB) (sub e email : String)
    (hsub : sub ≠ "") (he : e ≠ "") (hne : e ≠ sub)
    (hval : containsAt email = true) (hemail : email ≠ "") :
    (setNotificationEmailHandler db sub (some e) email).2 = true ∧
    (∃ x ∈ ((setNotificationEmailHandler db sub (some e) email).1).userSettings,
      x.userId = sub ∧ x.notificationEmail = some email) ∧
    (∃ x ∈ ((setNotificationEmailHandler db sub (some e) email).1).userSettings,
      x.userId = e ∧ x.notificationEmail = some email) ∧
    (∀ x ∈ ((setNotificationEmailHandler db sub (some e) email).1).userSettings,
      x.userId = sub ∨ x.userId = e → x.notificationEmail = some email) := by
  have hie := isEmpty_false_of_ne email hemail
  have hse := isEmpty_false_of_ne e he
  have hss := isEmpty_false_of_ne sub hsub
  have hbe : (e != sub) = true := bne_iff_ne.mpr hne
  have hU : (setNotificationEmailHandler db sub (some e) email).1.userSettings =
      upsertNotificationEmail
        (upsertNotificationEmail
          (db.userSettings.filter
            (fun s => !([sub, e].contains s.userId &&
              s.notificationEmail != some email)))
          sub email) e email := by
    simp [setNotificationEmailHandler, hie, hval, hse, hss, hbe]
  refine ⟨by simp [setNotificationEmailHandler, hie, hval], ?_, ?_, ?_⟩
  · obtain ⟨x, hx, hid, hmail⟩ :=
      upsertNotificationEmail_exists
        (db.userSettings.filter
          (fun s => !([sub, e].contains s.userId &&
            s.notificationEmail != some email))) sub email
    refine ⟨x, ?_, hid, hmail⟩
    rw [hU]
    exact mem_upsertNotificationEmail_of_ne _ e email x hx
      (by rw [hid]; exact fun hc => hne hc.symm)
  · obtain ⟨x, hx, hid, hmail⟩ :=
      upsertNotificationEmail_exists
        (upsertNotificationEmail
          (db.userSettings.filter
            (fun s => !([sub, e].contains s.userId &&
              s.notificationEmail != some email))) sub email) e email
    exact ⟨x, hU ▸ hx, hid, hmail⟩
  · intro x hx hor
    rw [hU] at hx
    rcases mem_upsertNotificationEmail_cases _ _ _ _ hx with h1 | h1
    · exact h1
    rcases mem_upsertNotificationEmail_cases _ _ _ _ h1 with h2 | h2
    · exact h2
    have h3 := (List.mem_filter.mp h2).2
    have hcont : ([sub, e].contains x.userId) = true := by
      rcases hor with h | h <;> simp [h]
    rw [hcont] at h3
    simpa using h3

/-- Witness for C7: two stale rows sharing the old address under the two
identity keys are consolidated onto the new address. -/
theorem set_email_consolidates_witness :
    (setNotificationEmailHandler
        (DB.mk [] []
          [UserSetting.mk "sub1" (some true) (some "old@x.com"),
           UserSetting.mk "a@b.com" none (some "old@x.com")] 0)
        "sub1" (some "a@b.com") "new@x.com").2 = true ∧
    (∃ x ∈ ((setNotificationEmailHandler
        (DB.mk [] []
          [UserSetting.mk "sub1" (some true) (some "old@x.com"),
           UserSetting.mk "a@b.com" none (some "old@x.com")] 0)
        "sub1" (some "a@b.com") "new@x.com").1).userSettings,
      x.userId = "sub1" ∧ x.notificationEmail = some "new@x.com") ∧
    (∃ x ∈ ((setNotificationEmailHandler
        (DB.mk [] []
          [UserSetting.mk "sub1" (some true) (some "old@x.com"),
           UserSetting.mk "a@b.com" none (some "old@x.com")] 0)
        "sub1" (some "a@b.com") "new@x.com").1).userSettings,
      x.userId = "a@b.com" ∧ x.notificationEmail = some "new@x.com") ∧
    (∀ x ∈ ((setNotificationEmailHandler
        (DB.mk [] []
          [UserSetting.mk "sub1" (some true) (some "old@x.com"),
           UserSetting.mk "a@b.com" none (some "old@x.com")] 0)
        "sub1" (some "a@b.com") "new@x.com").1).userSettings,
      x.userId = "sub1" ∨ x.userId = "a@b.com" →
        x.notificationEmail = some "new@x.com") :=
  set_email_consolidates _ "sub1" "a@b.com" "new@x.com" (by decide) (by decide)
    (by decide) (by decide) (by decide)

/-! ## Claim theorems: endpoint deletion cascade (C8) -/

theorem find?_deleteOneEndpoint_eq_none (l : List Endpoint) (id : String)
    (hnodup : (l.map (fun e => e._id)).Nodup) :
    (deleteOneEndpoint l id).find? (fun e => e._id == id) = none := by
  induction l with
  | nil => rfl
  | cons x rest ih =>
    rw [List.map_cons, List.nodup_cons] at hnodup
    cases h : (x._id == id) with
    | true =>
      simp only [deleteOneEndpoint, h, if_pos]
      apply List.find?_eq_none.mpr
      intro e he hc
      have hid : x._id = id := beq_iff_eq.mp h
      have hce : e._id = id := beq_iff_eq.mp hc
      exact hnodup.1 (by
        rw [hid, ← hce]
        exact List.mem_map_of_mem (fun e => e._id) he)
    | false =>
      simp only [deleteOneEndpoint, h, Bool.false_eq_true, if_neg,
        not_false_iff]
      rw [List.find?_cons_of_neg _ (by simp [h]), ih hnodup.2]

/-- C8: deleting an endpoint leaves no request logged against it, a
subsequent socket join addressed to that identifier answers the `error`
emit, and the join step adds the subscriber to no room (the room set is
unchanged).  The hypothesis that endpoint `_id`s are pairwise distinct is
MongoDB's primary-key uniqueness. -/
theorem delete_endpoint_cascades (db : DB) (caller id : String)
    (hnodup : (db.endpoints.map (fun e => e._id)).Nodup) :
    (∀ r ∈ ((deleteEndpointHandler db caller id).1).requests,
      r.endpointId ≠ id) ∧
    joinHandler ((deleteEndpointHandler db caller id).1) id =
      JoinResult.errorNotFound ∧
    (∀ (ia : Nat → IngestArgs) (ja : Nat → JoinArgs) (s : ExecState) (j : Nat),
      s.db = (deleteEndpointHandler db caller id).1 →
      (ja j).endpointId = id →
      (step ia ja s (Step.joinCheckAndAdd j)).rooms = s.rooms) := by
  have hnone : findOneEndpoint ((deleteEndpointHandler db caller id).1) id =
      none := by
    simpa [findOneEndpoint, deleteEndpointHandler] using
      find?_deleteOneEndpoint_eq_none db.endpoints id hnodup
  refine ⟨?_, ?_, ?_⟩
  · intro r hr
    have := (List.mem_filter.mp hr).2
    exact bne_iff_ne.mp this
  · simp [joinHandler, hnone]
  · intro ia ja s j hdb hja
    simp [step, hdb, hja, hnone]

/-- Witness for C8 at a concrete database. -/
theorem delete_endpoint_cascades_witness :
    (∀ r ∈ ((deleteEndpointHandler
        (DB.mk [Endpoint.mk "e" none 0 (some "alice@example.com")]
          [StoredRequest.mk 0 "e" "POST" "h" "b" "q" 1] [] 2)
        "alice@example.com" "e").1).requests, r.endpointId ≠ "e") ∧
    joinHandler ((deleteEndpointHandler
        (DB.mk [Endpoint.mk "e" none 0 (some "alice@example.com")]
          [StoredRequest.mk 0 "e" "POST" "h" "b" "q" 1] [] 2)
        "alice@example.com" "e").1) "e" = JoinResult.errorNotFound ∧
    (∀ (ia : Nat → IngestArgs) (ja : Nat → JoinArgs) (s : ExecState) (j : Nat),
      s.db = (deleteEndpointHandler
        (DB.mk [Endpoint.mk "e" none 0 (some "alice@example.com")]
          [StoredRequest.mk 0 "e" "POST" "h" "b" "q" 1] [] 2)
        "alice@example.com" "e").1 →
      (ja j).endpointId = "e" →
      (step ia ja s (Step.joinCheckAndAdd j)).rooms = s.rooms) :=
  delete_endpoint_cascades _ "alice@example.com" "e" (by decide)

/-! ## Trace-model infrastructure -/

/-- The pristine state at process start: the given database, no rooms, no
deliveries, no in-flight handler tasks. -/
def initState (db : DB) : ExecState :=
  ⟨db, [], [], [], [], [], [], []⟩

theorem run_append (ia : Nat → IngestArgs) (ja : Nat → JoinArgs)
    (s : ExecState) (a b : List Step) :
    run ia ja s (a ++ b) = run ia ja (run ia ja s a) b :=
  List.foldl_append _ _ a b

theorem run_cons (ia : Nat → IngestArgs) (ja : Nat → JoinArgs)
    (s : ExecState) (st : Step) (tr : List Step) :
    run ia ja s (st :: tr) = run ia ja (step ia ja s st) tr :=
  rfl

/-- Every segment either leaves the database alone or appends exactly one
request stamped with the current counter (and bumps the counter). -/
theorem step_db_shape (ia : Nat → IngestArgs) (ja : Nat → JoinArgs)
    (s : ExecState) (st : Step) :
    (step ia ja s st).db = s.db ∨
    ∃ r : StoredRequest, r._id = s.db.nextId ∧
      (step ia ja s st).db =
        { s.db with requests := s.db.requests ++ [r],
                    nextId := s.db.nextId + 1 } := by
  cases st with
  | ingestCheck t =>
    left
    simp only [step]
    split <;> rfl
  | ingestAppend t =>
    simp only [step]
    split
    · right
      exact ⟨_, rfl, rfl⟩
    · left
      rfl
  | ingestBroadcast t =>
    left
    simp only [step]
    split
    · rfl
    · split <;> rfl
  | joinCheckAndAdd j =>
    left
    simp only [step]
    split <;> rfl
  | joinSnapshot j =>
    left
    simp only [step]
    split <;> rfl

theorem mem_requests_step (ia : Nat → IngestArgs) (ja : Nat → JoinArgs)
    (s : ExecState) (st : Step) (r : StoredRequest)
    (h : r ∈ s.db.requests) : r ∈ (step ia ja s st).db.requests := by
  rcases step_db_shape ia ja s st with heq | ⟨x, _, heq⟩ <;> rw [heq]
  · exact h
  · exact List.mem_append_left _ h

theorem rooms_mono_step (ia : Nat → IngestArgs) (ja : Nat → JoinArgs)
    (s : ExecState) (st : Step) (p : String × String)
    (h : p ∈ s.rooms) : p ∈ (step ia ja s st).rooms := by
  cases st with
  | ingestCheck t =>
    simp only [step]
    split <;> exact h
  | ingestAppend t =>
    simp only [step]
    split <;> exact h
  | ingestBroadcast t =>
    simp only [step]
    split
    · exact h
    · split <;> exact h
  | joinCheckAndAdd j =>
    simp only [step]
    split
    · exact List.mem_append_left _ h
    · exact h
  | joinSnapshot j =>
    simp only [step]
    split <;> exact h

theorem rooms_mono_run (ia : Nat → IngestArgs) (ja : Nat → JoinArgs)
    (s : ExecState) (tr : List Step) (p : String × String)
    (h : p ∈ s.rooms) : p ∈ (run ia ja s tr).rooms := by
  induction tr generalizing s with
  | nil => exact h
  | cons st tr ih =>
    rw [run_cons]
    exact ih _ (rooms_mono_step ia ja s st p h)

theorem ingReq_mono_step (ia : Nat → IngestArgs) (ja : Nat → JoinArgs)
    (s : ExecState) (st : Step) (p : Nat × StoredRequest)
    (h : p ∈ s.ingReq) : p ∈ (step ia ja s st).ingReq := by
  cases st with
  | ingestCheck t =>
    simp only [step]
    split <;> exact h
  | ingestAppend t =>
    simp only [step]
    split
    · exact List.mem_cons_of_mem _ h
    · exact h
  | ingestBroadcast t =>
    simp only [step]
    split
    · exact h
    · split <;> exact h
  | joinCheckAndAdd j =>
    simp only [step]
    split <;> exact h
  | joinSnapshot j =>
    simp only [step]
    split <;> exact h

theorem ingReq_mono_run (ia : Nat → IngestArgs) (ja : Nat → JoinArgs)
    (s : ExecState) (tr : List Step) (p : Nat × StoredRequest)
    (h : p ∈ s.ingReq) : p ∈ (run ia ja s tr).ingReq := by
  induction tr generalizing s with
  | nil => exact h
  | cons st tr ih =>
    rw [run_cons]
    exact ih _ (ingReq_mono_step ia ja s st p h)

theorem deliveries_mono_step (ia : Nat → IngestArgs) (ja : Nat → JoinArgs)
    (s : ExecState) (st : Step) (d : Delivery)
    (h : d ∈ s.deliveries) : d ∈ (step ia ja s st).deliveries := by
  cases st with
  | ingestCheck t =>
    simp only [step]
    split <;> exact h
  | ingestAppend t =>
    simp only [step]
    split <;> exact h
  | ingestBroadcast t =>
    simp only [step]
    split
    · exact h
    · split
      · exact h
      · exact List.mem_append_left _ h
  | joinCheckAndAdd j =>
    simp only [step]
    split <;> exact h
  | joinSnapshot j =>
    simp only [step]
    split
    · exact List.mem_append_left _ h
    · exact h

theorem deliveries_mono_run (ia : Nat → IngestArgs) (ja : Nat → JoinArgs)
    (s : ExecState) (tr : List Step) (d : Delivery)
    (h : d ∈ s.deliveries) : d ∈ (run ia ja s tr).deliveries := by
  induction tr generalizing s with
  | nil => exact h
  | cons st tr ih =>
    rw [run_cons]
    exact ih _ (deliveries_mono_step ia ja s st d h)

/-! ## Claim theorems: sequence identifiers (C3) -/

/-- The store-ordering invariant: request identifiers strictly increase
along the insertion-ordered log and stay below the store counter. -/
def SeqInv (db : DB) : Prop :=
  ((db.requests.map (fun r => r._id)).Pairwise (· < ·)) ∧
  ∀ r ∈ db.requests, r._id < db.nextId

theorem seqInv_step (ia : Nat → IngestArgs) (ja : Nat → JoinArgs)
    (s : ExecState) (st : Step) (h : SeqInv s.db) :
    SeqInv (step ia ja s st).db := by
  rcases step_db_shape ia ja s st with heq | ⟨r, hid, heq⟩
  · rw [heq]
    exact h
  · rw [heq]
    constructor
    · rw [List.map_append]
      apply List.pairwise_append.mpr
      refine ⟨h.1, by simp, ?_⟩
      intro a ha b hb
      simp only [List.map_cons, List.map_nil, List.mem_singleton] at hb
      subst hb
      rw [hid]
      obtain ⟨x, hx, hax⟩ := List.mem_map.mp ha
      exact hax ▸ h.2 x hx
    · intro x hx
      rcases List.mem_append.mp hx with h1 | h1
      · exact Nat.lt_succ_of_lt (h.2 x h1)
      · simp only [List.mem_singleton] at h1
        subst h1
        simp [hid]

theorem seqInv_run (ia : Nat → IngestArgs) (ja : Nat → JoinArgs)
    (s : ExecState) (tr : List Step) (h : SeqInv s.db) :
    SeqInv (run ia ja s tr).db := by
  induction tr generalizing s with
  | nil => exact h
  | cons st tr ih =>
    rw [run_cons]
    exact ih _ (seqInv_step ia ja s st h)

/-- C3: from any state whose store satisfies the ordering invariant, after
any interleaving of handler segments (covering concurrent ingests) the
store-assigned identifiers still strictly increase along the log, and for
every endpoint the identifiers of its requests — which fix the ordering —
strictly increase in insertion order and are pairwise distinct (no reuse,
no ties). -/
theorem seq_ids_strictly_increase (ia : Nat → IngestArgs)
    (ja : Nat → JoinArgs) (s : ExecState) (tr : List Step) (E : String)
    (h : SeqInv s.db) :
    SeqInv (run ia ja s tr).db ∧
    ((((run ia ja s tr).db.requests.filter
      (fun r => r.endpointId == E)).map (fun r => r._id)).Pairwise (· < ·)) ∧
    ((((run ia ja s tr).db.requests.filter
      (fun r => r.endpointId == E)).map (fun r => r._id)).Nodup) := by
  have hinv := seqInv_run ia ja s tr h
  have hfil : ((((run ia ja s tr).db.requests.filter
      (fun r => r.endpointId == E)).map (fun r => r._id)).Pairwise (· < ·)) :=
    hinv.1.sublist
      (((run ia ja s tr).db.requests.filter_sublist).map (fun r => r._id))
  exact ⟨hinv, hfil, hfil.imp (fun hlt => Nat.ne_of_lt hlt)⟩

/-- Witness for C3: two ingests interleaved on one endpoint, from a fresh
store. -/
theorem seq_ids_strictly_increase_witness :
    SeqInv (run (fun _ => IngestArgs.mk "e" "POST" "h" "b" "q" 5)
      (fun _ => JoinArgs.mk "sub" "e")
      (initState (DB.mk [Endpoint.mk "e" none 0 none] [] [] 0))
      [Step.ingestCheck 0, Step.ingestCheck 1, Step.ingestAppend 0,
        Step.ingestAppend 1]).db ∧
    ((((run (fun _ => IngestArgs.mk "e" "POST" "h" "b" "q" 5)
      (fun _ => JoinArgs.mk "sub" "e")
      (initState (DB.mk [Endpoint.mk "e" none 0 none] [] [] 0))
      [Step.ingestCheck 0, Step.ingestCheck 1, Step.ingestAppend 0,
        Step.ingestAppend 1]).db.requests.filter
      (fun r => r.endpointId == "e")).map (fun r => r._id)).Pairwise (· < ·)) ∧
    ((((run (fun _ => IngestArgs.mk "e" "POST" "h" "b" "q" 5)
      (fun _ => JoinArgs.mk "sub" "e")
      (initState (DB.mk [Endpoint.mk "e" none 0 none] [] [] 0))
      [Step.ingestCheck 0, Step.ingestCheck 1, Step.ingestAppend 0,
        Step.ingestAppend 1]).db.requests.filter
      (fun r => r.endpointId == "e")).map (fun r => r._id)).Nodup) :=
  seq_ids_strictly_increase _ _ _ _ "e" (by constructor <;> simp [initState])

/-! ## Claim theorems: per-endpoint isolation (C10) -/

theorem insertDescByTimestamp_perm (r : StoredRequest)
    (l : List StoredRequest) : (insertDescByTimestamp r l).Perm (r :: l) := by
  induction l with
  | nil => exact List.Perm.refl _
  | cons x xs ih =>
    simp only [insertDescByTimestamp]
    split
    · exact List.Perm.refl _
    · exact (ih.cons x).trans (List.Perm.swap r x xs)

theorem sortDescByTimestamp_perm (l : List StoredRequest) :
    (sortDescByTimestamp l).Perm l := by
  induction l with
  | nil => exact List.Perm.refl _
  | cons r rs ih =>
    exact (insertDescByTimestamp_perm r (sortDescByTimestamp rs)).trans (ih.cons r)

theorem mem_recentRequestsQuery (db : DB) (E : String) (r : StoredRequest)
    (h : r ∈ recentRequestsQuery db E) :
    r.endpointId = E ∧ r ∈ db.requests := by
  have h1 : r ∈ sortDescByTimestamp
      (db.requests.filter (fun x => x.endpointId == E)) :=
    List.mem_of_mem_take h
  have h2 : r ∈ db.requests.filter (fun x => x.endpointId == E) :=
    (sortDescByTimestamp_perm _).mem_iff.mp h1
  exact ⟨beq_iff_eq.mp (List.mem_filter.mp h2).2, (List.mem_filter.mp h2).1⟩

/-- Invariant: every delivery so far carries a persisted record of the very
endpoint it was delivered through, and every appended record held in an
ingest task's register is persisted. -/
def IsolationInv (s : ExecState) : Prop :=
  (∀ d ∈ s.deliveries,
    d.request.endpointId = d.endpointId ∧ d.request ∈ s.db.requests) ∧
  (∀ p ∈ s.ingReq, (p : Nat × StoredRequest).2 ∈ s.db.requests)

theorem isolationInv_step (ia : Nat → IngestArgs) (ja : Nat → JoinArgs)
    (s : ExecState) (st : Step) (h : IsolationInv s) :
    IsolationInv (step ia ja s st) := by
  have hmemsh := mem_requests_step ia ja s st
  cases st with
  | ingestCheck t =>
    constructor
    · intro d hd
      have hd' : d ∈ s.deliveries := by
        simp only [step] at hd
        split at hd <;> exact hd
      exact ⟨(h.1 d hd').1, hmemsh _ ((h.1 d hd').2)⟩
    · intro p hp
      have hp' : p ∈ s.ingReq := by
        simp only [step] at hp
        split at hp <;> exact hp
      exact hmemsh _ (h.2 p hp')
  | ingestAppend t =>
    constructor
    · intro d hd
      have hd' : d ∈ s.deliveries := by
        simp only [step] at hd
        split at hd <;> exact hd
      exact ⟨(h.1 d hd').1, hmemsh _ ((h.1 d hd').2)⟩
    · intro p hp
      simp only [step] at hp ⊢
      split at hp
      · next hc =>
          rw [if_pos hc]
          rcases List.mem_cons.mp hp with h1 | h1
          · subst h1
            exact List.mem_append_right _ (by simp)
          · exact List.mem_append_left _ (h.2 p h1)
      · next hc =>
          rw [if_neg hc]
          exact h.2 p hp
  | ingestBroadcast t =>
    constructor
    · intro d hd
      simp only [step] at hd
      split at hd
      · exact ⟨(h.1 d hd).1, hmemsh _ ((h.1 d hd).2)⟩
      · split at hd
        · exact ⟨(h.1 d hd).1, hmemsh _ ((h.1 d hd).2)⟩
        · next t' r heq =>
            rcases List.mem_append.mp hd with h1 | h1
            · exact ⟨(h.1 d h1).1, hmemsh _ ((h.1 d h1).2)⟩
            · obtain ⟨sub, _, hsub⟩ := List.mem_map.mp h1
              have hreq : (t', r) ∈ s.ingReq := List.mem_of_find?_eq_some heq
              have hr : r ∈ s.db.requests := h.2 (t', r) hreq
              subst hsub
              exact ⟨rfl, hmemsh _ hr⟩
    · intro p hp
      have hp' : p ∈ s.ingReq := by
        simp only [step] at hp
        split at hp
        · exact hp
        · split at hp <;> exact hp
      exact hmemsh _ (h.2 p hp')
  | joinCheckAndAdd j =>
    constructor
    · intro d hd
      have hd' : d ∈ s.deliveries := by
        simp only [step] at hd
        split at hd <;> exact hd
      exact ⟨(h.1 d hd').1, hmemsh _ ((h.1 d hd').2)⟩
    · intro p hp
      have hp' : p ∈ s.ingReq := by
        simp only [step] at hp
        split at hp <;> exact hp
      exact hmemsh _ (h.2 p hp')
  | joinSnapshot j =>
    constructor
    · intro d hd
      simp only [step] at hd
      split at hd
      · rcases List.mem_append.mp hd with h1 | h1
        · exact ⟨(h.1 d h1).1, hmemsh _ ((h.1 d h1).2)⟩
        · obtain ⟨r, hr, hrd⟩ := List.mem_map.mp h1
          have hq := mem_recentRequestsQuery s.db (ja j).endpointId r hr
          subst hrd
          exact ⟨hq.1, hmemsh _ hq.2⟩
      · exact ⟨(h.1 d hd).1, hmemsh _ ((h.1 d hd).2)⟩
    · intro p hp
      have hp' : p ∈ s.ingReq := by
        simp only [step] at hp
        split at hp <;> exact hp
      exact hmemsh _ (h.2 p hp')

theorem isolationInv_run (ia : Nat → IngestArgs) (ja : Nat → JoinArgs)
    (s : ExecState) (tr : List Step) (h : IsolationInv s) :
    IsolationInv (run ia ja s tr) := by
  induction tr generalizing s with
  | nil => exact h
  | cons st tr ih =>
    rw [run_cons]
    exact ih _ (isolationInv_step ia ja s st h)

/-- C10: starting a process on any database, after any interleaving of
ingests and joins, every record delivered to a subscriber — in a catch-up
snapshot or as a live broadcast — was ingested against the very endpoint
the delivery went through (the stored record's `endpointId` equals the
delivery's room) and is persisted in the store. -/
theorem per_endpoint_isolation (ia : Nat → IngestArgs) (ja : Nat → JoinArgs)
    (db : DB) (tr : List Step) :
    ∀ d ∈ (run ia ja (initState db) tr).deliveries,
      d.request.endpointId = d.endpointId ∧
      d.request ∈ (run ia ja (initState db) tr).db.requests := by
  have h0 : IsolationInv (initState db) := by
    constructor <;> simp [initState]
  exact (isolationInv_run ia ja (initState db) tr h0).1

/-- Witness for C10: a concrete snapshot delivery on endpoint `e`. -/
theorem per_endpoint_isolation_witness :
    (Delivery.mk "sub" "e" (StoredRequest.mk 0 "e" "POST" "h" "b" "q" 5)
      DeliveryKind.snapshot).request.endpointId =
      (Delivery.mk "sub" "e" (StoredRequest.mk 0 "e" "POST" "h" "b" "q" 5)
        DeliveryKind.snapshot).endpointId ∧
    (Delivery.mk "sub" "e" (StoredRequest.mk 0 "e" "POST" "h" "b" "q" 5)
      DeliveryKind.snapshot).request ∈
      (run (fun _ => IngestArgs.mk "e" "POST" "h" "b" "q" 5)
        (fun _ => JoinArgs.mk "sub" "e")
        (initState (DB.mk [Endpoint.mk "e" none 0 none] [] [] 0))
        [Step.ingestCheck 0, Step.ingestAppend 0, Step.joinCheckAndAdd 0,
          Step.joinSnapshot 0]).db.requests :=
  per_endpoint_isolation (fun _ => IngestArgs.mk "e" "POST" "h" "b" "q" 5)
    (fun _ => JoinArgs.mk "sub" "e")
    (DB.mk [Endpoint.mk "e" none 0 none] [] [] 0)
    [Step.ingestCheck 0, Step.ingestAppend 0, Step.joinCheckAndAdd 0,
      Step.joinSnapshot 0]
    (Delivery.mk "sub" "e" (StoredRequest.mk 0 "e" "POST" "h" "b" "q" 5)
      DeliveryKind.snapshot) (by decide)

/-! ## Claim theorems: join/broadcast boundary (C2) -/

/-- The append guard keeps the task keys of the ingest registers distinct. -/
def IngReqKeysNodup (s : ExecState) : Prop :=
  (s.ingReq.map Prod.fst).Nodup

theorem ingReqKeysNodup_step (ia : Nat → IngestArgs) (ja : Nat → JoinArgs)
    (s : ExecState) (st : Step) (h : IngReqKeysNodup s) :
    IngReqKeysNodup (step ia ja s st) := by
  cases st with
  | ingestCheck t =>
    simp only [IngReqKeysNodup, step]
    split <;> exact h
  | ingestAppend t =>
    simp only [IngReqKeysNodup, step]
    split
    · next hc =>
        have hnot : t ∉ s.ingReq.map Prod.fst := by
          have hc' : t ∈ s.ingOk ∧ t ∉ s.ingReq.map Prod.fst := by simpa using hc
          exact hc'.2
        simpa using List.nodup_cons.mpr ⟨hnot, h⟩
    · exact h
  | ingestBroadcast t =>
    simp only [IngReqKeysNodup, step]
    split
    · exact h
    · split <;> exact h
  | joinCheckAndAdd j =>
    simp only [IngReqKeysNodup, step]
    split <;> exact h
  | joinSnapshot j =>
    simp only [IngReqKeysNodup, step]
    split <;> exact h

theorem ingReqKeysNodup_run (ia : Nat → IngestArgs) (ja : Nat → JoinArgs)
    (s : ExecState) (tr : List Step) (h : IngReqKeysNodup s) :
    IngReqKeysNodup (run ia ja s tr) := by
  induction tr generalizing s with
  | nil => exact h
  | cons st tr ih =>
    rw [run_cons]
    exact ih _ (ingReqKeysNodup_step ia ja s st h)

theorem find?_ingReq_of_mem (l : List (Nat × StoredRequest)) (t : Nat)
    (r : StoredRequest) (hnd : (l.map Prod.fst).Nodup) (hmem : (t, r) ∈ l) :
    l.find? (fun p => p.1 == t) = some (t, r) := by
  induction l with
  | nil => cases hmem
  | cons x rest ih =>
    rw [List.map_cons, List.nodup_cons] at hnd
    rcases List.mem_cons.mp hmem with h1 | h1
    · subst h1
      simp [List.find?_cons_of_pos]
    · have hx : (x.1 == t) = false := by
        apply beq_eq_false_iff_ne.mpr
        intro hc
        exact hnd.1 (hc ▸ List.mem_map_of_mem Prod.fst h1)
      rw [List.find?_cons_of_neg _ (by simp [hx]), ih hnd.2 h1]

theorem joinCheckAndAdd_adds (ia : Nat → IngestArgs) (ja : Nat → JoinArgs)
    (s : ExecState) (j : Nat)
    (hex : (findOneEndpoint s.db (ja j).endpointId).isSome = true)
    (hnew : s.joinOk.contains j = false) :
    ((ja j).endpointId, (ja j).subscriber) ∈
      (step ia ja s (Step.joinCheckAndAdd j)).rooms := by
  have hj : j ∉ s.joinOk := by simpa using hnew
  simp [step, hex, hj]

theorem ingestAppend_appends (ia : Nat → IngestArgs) (ja : Nat → JoinArgs)
    (s : ExecState) (t : Nat)
    (hok : s.ingOk.contains t = true)
    (hnew : (s.ingReq.map Prod.fst).contains t = false) :
    (t, StoredRequest.mk s.db.nextId (ia t).endpointId (ia t).method
      (ia t).headers (ia t).body (ia t).query (ia t).timestamp) ∈
      (step ia ja s (Step.ingestAppend t)).ingReq := by
  have h1 : t ∈ s.ingOk := by simpa using hok
  have h2 : t ∉ s.ingReq.map Prod.fst := by simpa using hnew
  simp [step, h1, h2]

theorem ingestBroadcast_delivers (ia : Nat → IngestArgs)
    (ja : Nat → JoinArgs) (s : ExecState) (t : Nat) (r : StoredRequest)
    (sub : String) (hnb : s.ingBcast.contains t = false)
    (hnd : IngReqKeysNodup s) (hmem : (t, r) ∈ s.ingReq)
    (hroom : (r.endpointId, sub) ∈ s.rooms) :
    Delivery.mk sub r.endpointId r DeliveryKind.live ∈
      (step ia ja s (Step.ingestBroadcast t)).deliveries := by
  have hf := find?_ingReq_of_mem s.ingReq t r hnd hmem
  simp only [step, hnb, Bool.false_eq_true, if_neg, not_false_iff, hf]
  apply List.mem_append_right
  apply List.mem_map.mpr
  refine ⟨sub, ?_, rfl⟩
  apply List.mem_map.mpr
  refine ⟨(r.endpointId, sub), ?_, rfl⟩
  exact List.mem_filter.mpr ⟨hroom, by simp⟩

/-- Room membership of every checked-in join task, and the containment of
snapshot-completed tasks among checked-in ones. -/
def JoinRoomInv (ja : Nat → JoinArgs) (s : ExecState) : Prop :=
  (∀ j ∈ s.joinOk, ((ja j).endpointId, (ja j).subscriber) ∈ s.rooms) ∧
  (∀ j ∈ s.joinSnapped, j ∈ s.joinOk)

theorem joinRoomInv_step (ia : Nat → IngestArgs) (ja : Nat → JoinArgs)
    (s : ExecState) (st : Step) (h : JoinRoomInv ja s) :
    JoinRoomInv ja (step ia ja s st) := by
  have hro := rooms_mono_step ia ja s st
  cases st with
  | ingestCheck t =>
    constructor
    · intro j hj
      have hj' : j ∈ s.joinOk := by
        simp only [step] at hj
        split at hj <;> exact hj
      exact hro _ (h.1 j hj')
    · intro j hj
      have hj' : j ∈ s.joinSnapped := by
        simp only [step] at hj
        split at hj <;> exact hj
      have := h.2 j hj'
      simp only [step]
      split <;> exact this
  | ingestAppend t =>
    constructor
    · intro j hj
      have hj' : j ∈ s.joinOk := by
        simp only [step] at hj
        split at hj <;> exact hj
      exact hro _ (h.1 j hj')
    · intro j hj
      have hj' : j ∈ s.joinSnapped := by
        simp only [step] at hj
        split at hj <;> exact hj
      have := h.2 j hj'
      simp only [step]
      split <;> exact this
  | ingestBroadcast t =>
    constructor
    · intro j hj
      have hj' : j ∈ s.joinOk := by
        simp only [step] at hj
        split at hj
        · exact hj
        · split at hj <;> exact hj
      exact hro _ (h.1 j hj')
    · intro j hj
      have hj' : j ∈ s.joinSnapped := by
        simp only [step] at hj
        split at hj
        · exact hj
        · split at hj <;> exact hj
      have := h.2 j hj'
      simp only [step]
      split
      · exact this
      · split <;> exact this
  | joinCheckAndAdd j0 =>
    constructor
    · intro j hj
      simp only [step] at hj ⊢
      split at hj
      · next hc =>
          rw [if_pos hc]
          rcases List.mem_cons.mp hj with h1 | h1
          · subst h1
            exact List.mem_append_right _ (by simp)
          · exact List.mem_append_left _ (h.1 j h1)
      · next hc =>
          rw [if_neg hc]
          exact h.1 j hj
    · intro j hj
      have hj' : j ∈ s.joinSnapped := by
        simp only [step] at hj
        split at hj <;> exact hj
      have := h.2 j hj'
      simp only [step]
      split
      · exact List.mem_cons_of_mem _ this
      · exact this
  | joinSnapshot j0 =>
    constructor
    · intro j hj
      have hj' : j ∈ s.joinOk := by
        simp only [step] at hj
        split at hj <;> exact hj
      exact hro _ (h.1 j hj')
    · intro j hj
      simp only [step] at hj ⊢
      split at hj
      · next hc =>
          rw [if_pos hc]
          rcases List.mem_cons.mp hj with h1 | h1
          · subst h1
            have hc' : j ∈ s.joinOk ∧ j ∉ s.joinSnapped := by simpa using hc
            exact hc'.1
          · exact h.2 j h1
      · next hc =>
          rw [if_neg hc]
          exact h.2 j hj

theorem joinRoomInv_run (ia : Nat → IngestArgs) (ja : Nat → JoinArgs)
    (s : ExecState) (tr : List Step) (h : JoinRoomInv ja s) :
    JoinRoomInv ja (run ia ja s tr) := by
  induction tr generalizing s with
  | nil => exact h
  | cons st tr ih =>
    rw [run_cons]
    exact ih _ (joinRoomInv_step ia ja s st h)

/-- C2 (amended): the join discipline is add-before-read and admits no
silent gap.  From process start, (a) whenever a join task has emitted its
snapshot, its subscriber is already a member of the endpoint's room — the
room add precedes the snapshot read; and (b) any request whose store
append happens after the subscriber's room add is broadcast live to that
subscriber once its broadcast segment runs, whatever else is interleaved —
so no request ingested after the join is lost.  (A request appended after
the room add but before the snapshot read is delivered twice; see the
accompanying counterexample.) -/
theorem join_boundary_no_silent_gap (ia : Nat → IngestArgs)
    (ja : Nat → JoinArgs) (db : DB) :
    (∀ (tr : List Step) (j : Nat),
      j ∈ (run ia ja (initState db) tr).joinSnapped →
      ((ja j).endpointId, (ja j).subscriber) ∈
        (run ia ja (initState db) tr).rooms) ∧
    (∀ (tr1 tr2 tr3 tr4 : List Step) (j t : Nat),
      (ja j).endpointId = (ia t).endpointId →
      (findOneEndpoint (run ia ja (initState db) tr1).db
        (ja j).endpointId).isSome = true →
      (run ia ja (initState db) tr1).joinOk.contains j = false →
      (run ia ja (initState db)
        (tr1 ++ Step.joinCheckAndAdd j :: tr2)).ingOk.contains t = true →
      ((run ia ja (initState db)
        (tr1 ++ Step.joinCheckAndAdd j :: tr2)).ingReq.map
          Prod.fst).contains t = false →
      (run ia ja (initState db)
        (tr1 ++ Step.joinCheckAndAdd j :: tr2 ++
          Step.ingestAppend t :: tr3)).ingBcast.contains t = false →
      ∃ r : StoredRequest, r.endpointId = (ia t).endpointId ∧
        Delivery.mk (ja j).subscriber r.endpointId r DeliveryKind.live ∈
          (run ia ja (initState db)
            (tr1 ++ Step.joinCheckAndAdd j :: tr2 ++
              Step.ingestAppend t :: tr3 ++
                Step.ingestBroadcast t :: tr4)).deliveries) := by
  constructor
  · intro tr j hj
    have h0 : JoinRoomInv ja (initState db) := by
      constructor <;> simp [initState]
    have hinv := joinRoomInv_run ia ja (initState db) tr h0
    exact hinv.1 j (hinv.2 j hj)
  · intro tr1 tr2 tr3 tr4 j t hE hex hjnew hok htnew hbnew
    rw [run_append, run_cons] at hok htnew
    rw [run_append, run_cons, run_append, run_cons] at hbnew
    rw [run_append, run_cons, run_append, run_cons, run_append, run_cons]
    refine ⟨StoredRequest.mk
      (run ia ja (step ia ja (run ia ja (initState db) tr1)
        (Step.joinCheckAndAdd j)) tr2).db.nextId
      (ia t).endpointId (ia t).method (ia t).headers (ia t).body
      (ia t).query (ia t).timestamp, rfl, ?_⟩
    apply deliveries_mono_run
    have hpair2 := joinCheckAndAdd_adds ia ja (run ia ja (initState db) tr1)
      j hex hjnew
    have hpair3 := rooms_mono_run ia ja _ tr2 _ hpair2
    have hreq4 := ingestAppend_appends ia ja _ t hok htnew
    have hpair4 := rooms_mono_step ia ja _ (Step.ingestAppend t) _ hpair3
    have hreq5 := ingReq_mono_run ia ja _ tr3 _ hreq4
    have hpair5 := rooms_mono_run ia ja _ tr3 _ hpair4
    have hnd5 : IngReqKeysNodup (run ia ja (step ia ja (run ia ja (step ia ja
        (run ia ja (initState db) tr1) (Step.joinCheckAndAdd j)) tr2)
        (Step.ingestAppend t)) tr3) :=
      ingReqKeysNodup_run _ _ _ _ (ingReqKeysNodup_step _ _ _ _
        (ingReqKeysNodup_run _ _ _ _ (ingReqKeysNodup_step _ _ _ _
          (ingReqKeysNodup_run _ _ _ _
            (by simp [IngReqKeysNodup, initState])))))
    exact ingestBroadcast_delivers ia ja _ t _ (ja j).subscriber hbnew hnd5
      hreq5 (hE ▸ hpair5)

/-- Witness for C2's amended theorem: a check, a join, an append and a
broadcast interleaved on endpoint `e` yield the live delivery. -/
theorem join_boundary_no_silent_gap_witness :
    ∃ r : StoredRequest, r.endpointId = "e" ∧
      Delivery.mk "sub" r.endpointId r DeliveryKind.live ∈
        (run (fun _ => IngestArgs.mk "e" "POST" "h" "b" "q" 5)
          (fun _ => JoinArgs.mk "sub" "e")
          (initState (DB.mk [Endpoint.mk "e" none 0 none] [] [] 0))
          [Step.ingestCheck 0, Step.joinCheckAndAdd 0, Step.ingestAppend 0,
            Step.ingestBroadcast 0]).deliveries :=
  (join_boundary_no_silent_gap (fun _ => IngestArgs.mk "e" "POST" "h" "b" "q" 5)
      (fun _ => JoinArgs.mk "sub" "e")
      (DB.mk [Endpoint.mk "e" none 0 none] [] [] 0)).2
    [Step.ingestCheck 0] [] [] [] 0 0 rfl (by decide) (by decide) (by decide)
    (by decide) (by decide)

/-- C2 counterexample: with add-before-read, a request whose append lands
between the subscriber's room add and the snapshot read is delivered to
that subscriber twice — once in the catch-up snapshot and once as a live
broadcast — so the claim's no-duplicate guarantee fails. -/
theorem join_boundary_duplicate_delivery :
    ((run (fun _ => IngestArgs.mk "e" "POST" "h" "b" "q" 5)
        (fun _ => JoinArgs.mk "sub" "e")
        (initState (DB.mk [Endpoint.mk "e" none 0 none] [] [] 0))
        [Step.ingestCheck 0, Step.joinCheckAndAdd 0, Step.ingestAppend 0,
          Step.joinSnapshot 0, Step.ingestBroadcast 0]).deliveries.filter
      (fun d => d.subscriber == "sub" && d.request._id == 0)).length = 2 := by
  decide

end Webhook
